import Mathlib

/-!
Verification development for the zedd-downloader video-extraction pipeline
(server implementation, class FacebookVideoExtractor).

The string-processing core of the server is embedded shallowly: every JS
helper (cleanHtml, decodeUrl, isValidVideoUrl, the classifier functions,
the grouping/dedup helpers, the sort, and the extractVideos driver) becomes
an executable Lean function over List Char / String.  Two effectful
primitives of the JS runtime are abstracted:

 * the WHATWG URL parser invoked by `new URL(url)` inside isValidVideoUrl
   is a parameter `parse : String → Bool` (true = the constructor does not
   throw); both the code model and the specification predicate use the
   same parameter;
 * `Math.random() > 0.3` inside detectContentType is a parameter
   `rng : Nat → Bool` giving the outcome of the i-th draw, threaded with a
   draw counter in JS evaluation order.

The regex scanning stage of extractVideos is abstracted as its output: an
ExtractInput record carries, in discovery order, the match texts produced
by the 32 videoPatterns (with the pattern index), the fallback patterns,
the cheerio src attributes, the capture groups found in script blocks, and
the strings harvested from JSON-LD objects.  Everything the source does to
those candidates after matching (decoding, the scanner checks, validation,
the permissive pattern-31 branch, the seen-URL set, object creation, the
final sort, the endpoint's Facebook filter) is translated faithfully.
-/

namespace Zedd

/-- startsWithChars pat cs is true when pat is an initial segment of cs
(character-exact); used to model JS String.startsWith and regex literals. -/
def startsWithChars : List Char → List Char → Bool
  | [], _ => true
  | _ :: _, [] => false
  | p :: ps, c :: cs => p == c && startsWithChars ps cs

/-- containsSub hay needle models JS String.includes: needle occurs as a
contiguous substring of hay. -/
def containsSub (hay needle : List Char) : Bool :=
  match hay with
  | [] => needle.isEmpty
  | c :: t => startsWithChars needle (c :: t) || containsSub t needle

/-- incl s pat models s.includes(pat) on strings. -/
def incl (s pat : String) : Bool :=
  containsSub s.data pat.data

/-- lowerChars maps every character to lower case (ASCII reading of the /i
regex flag; all case-insensitive patterns in the source are ASCII). -/
def lowerChars (cs : List Char) : List Char :=
  cs.map Char.toLower

/-- inclCI s pat models a case-insensitive substring test, i.e. a /pat/i
regex test where pat is a literal alternation member. -/
def inclCI (s pat : String) : Bool :=
  containsSub (lowerChars s.data) (lowerChars pat.data)

/-- ciStarts pat cs: pat is an initial segment of cs up to ASCII case. -/
def ciStarts (pat cs : List Char) : Bool :=
  startsWithChars (lowerChars pat) (lowerChars cs)

/-- strStarts s pre models s.startsWith(pre). -/
def strStarts (s pre : String) : Bool :=
  startsWithChars pre.data s.data

/-- hexVal is the value of one hexadecimal digit, as consumed by
parseInt(code, 16) on the four-digit groups of the \uXXXX regex and by
decodeURIComponent on percent escapes. -/
def hexVal (c : Char) : Option Nat :=
  if '0' ≤ c ∧ c ≤ '9' then some (c.toNat - 48)
  else if 'A' ≤ c ∧ c ≤ 'F' then some (c.toNat - 55)
  else if 'a' ≤ c ∧ c ≤ 'f' then some (c.toNat - 87)
  else none

/-- isHexDigit decides membership in the regex class [0-9a-fA-F]. -/
def isHexDigit (c : Char) : Bool :=
  (hexVal c).isSome

/-- replaceSubAux pat rep fuel cs: left-to-right, non-overlapping
replacement of the literal pattern pat by rep, as performed by
String.replace with a /g literal regex; replacements are not rescanned.
The fuel argument (initially the length of cs) makes the recursion
structural; each step consumes at least one character, so fuel = length
gives the exact JS behaviour. -/
def replaceSubAux (pat rep : List Char) : Nat → List Char → List Char
  | 0, cs => cs
  | _ + 1, [] => []
  | fuel + 1, c :: rest =>
    if 1 ≤ pat.length ∧ startsWithChars pat (c :: rest) = true then
      rep ++ replaceSubAux pat rep fuel ((c :: rest).drop pat.length)
    else
      c :: replaceSubAux pat rep fuel rest

/-- replaceSub pat rep cs: global literal replacement (see replaceSubAux). -/
def replaceSub (pat rep cs : List Char) : List Char :=
  replaceSubAux pat rep cs.length cs

/-- removeSubCIAux pat fuel cs: left-to-right, non-overlapping removal of
every case-insensitive occurrence of pat, as performed by
String.replace(/pat/gi, ''). -/
def removeSubCIAux (pat : List Char) : Nat → List Char → List Char
  | 0, cs => cs
  | _ + 1, [] => []
  | fuel + 1, c :: rest =>
    if 1 ≤ pat.length ∧ ciStarts pat (c :: rest) = true then
      removeSubCIAux pat fuel ((c :: rest).drop pat.length)
    else
      c :: removeSubCIAux pat fuel rest

/-- removeSubCI pat cs: global case-insensitive removal of pat. -/
def removeSubCI (pat cs : List Char) : List Char :=
  removeSubCIAux pat cs.length cs

/-- replaceUnicodeAux models html.replace(/\\u([0-9a-fA-F]{4})/g, ...) of
cleanHtml: each backslash-u escape followed by four hex digits becomes the
character String.fromCharCode(parseInt(code, 16)).  fromCharCode of a lone
surrogate value is not a valid Lean Char; Char.ofNat maps it to NUL, a
deliberate modelling approximation (no claim exercises surrogate escapes).
On a failed match the scan advances one character, like the regex engine. -/
def replaceUnicodeAux : Nat → List Char → List Char
  | 0, cs => cs
  | _ + 1, [] => []
  | fuel + 1, c :: rest =>
    if c = '\\' then
      match rest with
      | 'u' :: a :: b :: c2 :: d :: rest2 =>
        match hexVal a, hexVal b, hexVal c2, hexVal d with
        | some x1, some x2, some x3, some x4 =>
          Char.ofNat (((x1 * 16 + x2) * 16 + x3) * 16 + x4) :: replaceUnicodeAux fuel rest2
        | _, _, _, _ => c :: replaceUnicodeAux fuel rest
      | _ => c :: replaceUnicodeAux fuel rest
    else
      c :: replaceUnicodeAux fuel rest

/-- replaceUnicode cs: global \uXXXX decoding (see replaceUnicodeAux). -/
def replaceUnicode (cs : List Char) : List Char :=
  replaceUnicodeAux cs.length cs

/-- cleanHtml is the Normalizer: the seven chained replacements of
FacebookVideoExtractor.cleanHtml, in source order (unicode escapes,
backslash-quote, double backslash, then the four HTML entities). -/
def cleanHtml (s : String) : String :=
  let s1 := replaceUnicode s.data
  let s2 := replaceSub ['\\', '"'] ['"'] s1
  let s3 := replaceSub ['\\', '\\'] ['\\'] s2
  let s4 := replaceSub "&quot;".data "\"".data s3
  let s5 := replaceSub "&amp;".data "&".data s4
  let s6 := replaceSub "&lt;".data "<".data s5
  let s7 := replaceSub "&gt;".data ">".data s6
  ⟨s7⟩

/-- quoteChar decides the regex class ["'] used when stripping wrapping
quotes in decodeUrl. -/
def quoteChar (c : Char) : Bool :=
  c == '"' || c == '\''

/-- stripQuotes models url.replace(/^["']|["']$/g, ''): one leading and one
trailing quote character are removed when present. -/
def stripQuotes (cs : List Char) : List Char :=
  let cs1 :=
    match cs with
    | c :: rest => if quoteChar c then rest else cs
    | [] => []
  match cs1.getLast? with
  | some c => if quoteChar c then cs1.dropLast else cs1
  | none => []

/-- baseOpenTag is the literal inside /^[^h]*<BaseURL>/gi. -/
def baseOpenTag : List Char := "<baseurl>".data

/-- baseCloseTag is the literal inside /<\/BaseURL>.*/gi. -/
def baseCloseTag : List Char := "</baseurl>".data

/-- findLastOpenTag cs i best scans cs (current index i) for occurrences of
the case-insensitive literal <BaseURL> and returns the index of the last
occurrence whose preceding characters contain no h or H; it stops at the
first h/H because the greedy [^h]* of /^[^h]*<BaseURL>/i cannot reach past
it.  best is the best index found so far. -/
def findLastOpenTag : List Char → Nat → Option Nat → Option Nat
  | [], _, best => best
  | c :: rest, i, best =>
    let best' := if ciStarts baseOpenTag (c :: rest) then some i else best
    if c = 'h' ∨ c = 'H' then best'
    else findLastOpenTag rest (i + 1) best'

/-- stripLeadBase models url.replace(/^[^h]*<BaseURL>/gi, ''): with the ^
anchor the global regex fires at most once, removing the greedy longest
h-free prefix ending in a <BaseURL> tag. -/
def stripLeadBase (cs : List Char) : List Char :=
  match findLastOpenTag cs 0 none with
  | some p => cs.drop (p + baseOpenTag.length)
  | none => cs

/-- dotlessChar decides whether a character is matched by the regex dot
without the s flag (everything except the four line terminators). -/
def dotlessChar (c : Char) : Bool :=
  !(c == '\n' || c == '\r' || c == ' ' || c == ' ')

/-- stripCloseAux models url.replace(/<\/BaseURL>.*/gi, ''): every
case-insensitive </BaseURL> and the rest of its line (dot does not cross
line terminators) is removed; scanning resumes at the line terminator. -/
def stripCloseAux : Nat → List Char → List Char
  | 0, cs => cs
  | _ + 1, [] => []
  | fuel + 1, c :: rest =>
    if ciStarts baseCloseTag (c :: rest) then
      stripCloseAux fuel (((c :: rest).drop baseCloseTag.length).dropWhile dotlessChar)
    else
      c :: stripCloseAux fuel rest

/-- stripClose cs: global removal of </BaseURL>-to-end-of-line. -/
def stripClose (cs : List Char) : List Char :=
  stripCloseAux cs.length cs

/-- idxOfGt finds the index of the first closing angle bracket. -/
def idxOfGt : List Char → Option Nat
  | [] => none
  | c :: rest =>
    if c = '>' then some 0
    else
      match idxOfGt rest with
      | some j => some (j + 1)
      | none => none

/-- removeTagsAux models url.replace(/<[^>]+>/g, ''): a < followed by at
least one non-> character and a > is removed; a < with no such closure is
kept and scanning continues at the next character. -/
def removeTagsAux : Nat → List Char → List Char
  | 0, cs => cs
  | _ + 1, [] => []
  | fuel + 1, c :: rest =>
    if c = '<' then
      match idxOfGt rest with
      | some j =>
        if 1 ≤ j then removeTagsAux fuel (rest.drop (j + 1))
        else c :: removeTagsAux fuel rest
      | none => c :: removeTagsAux fuel rest
    else
      c :: removeTagsAux fuel rest

/-- removeTags cs: global removal of <...> tag fragments. -/
def removeTags (cs : List Char) : List Char :=
  removeTagsAux cs.length cs

/-- pctByte reads one %XX escape at the head of the list, giving the byte
value and the remainder; none models the URIError decodeURIComponent
throws on a malformed escape. -/
def pctByte : List Char → Option (Nat × List Char)
  | '%' :: a :: b :: rest =>
    match hexVal a, hexVal b with
    | some x, some y => some (16 * x + y, rest)
    | _, _ => none
  | _ => none

/-- contByte checks a UTF-8 continuation byte range. -/
def contByte (lo hi b : Nat) : Bool :=
  decide (lo ≤ b) && decide (b ≤ hi)

/-- decodeURICompAux models decodeURIComponent: characters other than %
pass through; % escapes are decoded as UTF-8 byte sequences with the
standard range checks (continuation ranges, overlong and surrogate
rejection); none models a thrown URIError.  A supplementary code point is
one Lean Char where JS would hold a surrogate pair; no claim depends on
the difference.  fuel starts at the length of the list; every step
consumes at least one character. -/
def decodeURICompAux : Nat → List Char → Option (List Char)
  | 0, cs => some cs
  | _ + 1, [] => some []
  | fuel + 1, c :: rest =>
    if c = '%' then
      match pctByte (c :: rest) with
      | none => none
      | some (b, rest1) =>
        if b < 0x80 then
          (Char.ofNat b :: ·) <$> decodeURICompAux fuel rest1
        else if 0xC2 ≤ b ∧ b ≤ 0xDF then
          match pctByte rest1 with
          | some (b2, rest2) =>
            if contByte 0x80 0xBF b2 then
              (Char.ofNat ((b - 0xC0) * 64 + (b2 - 0x80)) :: ·) <$> decodeURICompAux fuel rest2
            else none
          | none => none
        else if 0xE0 ≤ b ∧ b ≤ 0xEF then
          match pctByte rest1 with
          | some (b2, rest2) =>
            let lo := if b = 0xE0 then 0xA0 else 0x80
            let hi := if b = 0xED then 0x9F else 0xBF
            if contByte lo hi b2 then
              match pctByte rest2 with
              | some (b3, rest3) =>
                if contByte 0x80 0xBF b3 then
                  (Char.ofNat ((b - 0xE0) * 4096 + (b2 - 0x80) * 64 + (b3 - 0x80)) :: ·) <$>
                    decodeURICompAux fuel rest3
                else none
              | none => none
            else none
          | none => none
        else if 0xF0 ≤ b ∧ b ≤ 0xF4 then
          match pctByte rest1 with
          | some (b2, rest2) =>
            let lo := if b = 0xF0 then 0x90 else 0x80
            let hi := if b = 0xF4 then 0x8F else 0xBF
            if contByte lo hi b2 then
              match pctByte rest2 with
              | some (b3, rest3) =>
                if contByte 0x80 0xBF b3 then
                  match pctByte rest3 with
                  | some (b4, rest4) =>
                    if contByte 0x80 0xBF b4 then
                      (Char.ofNat ((b - 0xF0) * 262144 + (b2 - 0x80) * 4096 +
                        (b3 - 0x80) * 64 + (b4 - 0x80)) :: ·) <$> decodeURICompAux fuel rest4
                    else none
                  | none => none
                else none
              | none => none
            else none
          | none => none
        else none
    else
      (c :: ·) <$> decodeURICompAux fuel rest

/-- decodeURIComp cs: percent decoding with UTF-8 validation; none models
the URIError thrown by decodeURIComponent. -/
def decodeURIComp (cs : List Char) : Option (List Char) :=
  decodeURICompAux cs.length cs

/-- wsChar covers the whitespace characters JS trim removes that occur in
this code base (ASCII whitespace; the full JS set also has exotic Unicode
space characters, which no candidate string contains). -/
def wsChar (c : Char) : Bool :=
  c == ' ' || c == '\t' || c == '\n' || c == '\r' || c == '\x0b' || c == '\x0c'

/-- trimChars models String.trim. -/
def trimChars (cs : List Char) : List Char :=
  ((cs.dropWhile wsChar).reverse.dropWhile wsChar).reverse

/-- dropBackslash models url.replace(/\\/g, ''). -/
def dropBackslash (cs : List Char) : List Char :=
  cs.filter (fun c => !(c == '\\'))

/-- decodeUrl is FacebookVideoExtractor.decodeUrl.  The argument is an
Option String: none stands for a non-string JS value (undefined capture
groups are passed to decodeUrl in the cheerio script path).  The falsy
check !url also rejects the empty string.  Inside the try block the local
url is successively reassigned (quotes stripped, BaseURL tags stripped,
remaining tags stripped); decodeURIComponent is the only throwing
operation, and on a throw the catch block applies its cleanup to the
reassigned url, not to the original argument. -/
def decodeUrl (x : Option String) : String :=
  match x with
  | none => ""
  | some u =>
    if u = "" then ""
    else
      let s1 := stripQuotes u.data
      let s2 := stripLeadBase s1
      let s3 := stripClose s2
      let s4 := removeSubCI "><baseurl>".data s3
      let s5 := removeTags s4
      match decodeURIComp (dropBackslash s5) with
      | some d =>
        let d1 := replaceSub "\\u002F".data "/".data d
        let d2 := replaceSub ['\\', '/'] ['/'] d1
        ⟨trimChars d2⟩
      | none =>
        ⟨trimChars (stripQuotes (dropBackslash s5))⟩

/-- isHashChar decides the regex class [A-Za-z0-9_-]. -/
def isHashChar (c : Char) : Bool :=
  c.isAlpha || c.isDigit || c == '_' || c == '-'

/-- longHashAux cs run: run is the length of the current maximal run of
[A-Za-z0-9_-] characters ending just before cs; the regex
/[A-Za-z0-9_-]{40,}\.mp4/ matches exactly when some such run of length at
least 40 is immediately followed by the literal .mp4. -/
def longHashAux : List Char → Nat → Bool
  | [], _ => false
  | c :: rest, run =>
    if isHashChar c then longHashAux rest (run + 1)
    else if c = '.' ∧ 40 ≤ run ∧ startsWithChars ['m', 'p', '4'] rest = true then true
    else longHashAux rest 0

/-- hasLongHash url models /[A-Za-z0-9_-]{40,}\.mp4/.test(url). -/
def hasLongHash (url : String) : Bool :=
  longHashAux url.data 0

/-- isValidVideoUrl is FacebookVideoExtractor.isValidVideoUrl.  parse
abstracts new URL(url): parse url is true when the constructor succeeds;
the try/catch that turns a parse throw into a rejection is the
parse-url-false branch.  The checks appear in source order: falsy/type
check, length, scheme, URL parse, .mp4, then the Facebook CDN fingerprint
conjunction and the DASH/segment exclusion. -/
def isValidVideoUrl (parse : String → Bool) (url : String) : Bool :=
  if url = "" then false
  else if url.length < 200 then false
  else if ¬ (strStarts url "http://" = true ∨ strStarts url "https://" = true) then false
  else if parse url = false then false
  else if incl url ".mp4" = false then false
  else
    let hasFacebookVideoIndicator :=
      (incl url "scontent" && incl url ".fna.fbcdn.net") &&
      (incl url "/o1/v/" || incl url "/o2/v/") &&
      incl url ".mp4?" &&
      (incl url "_nc_cat=" || incl url "&_nc_cat=") &&
      hasLongHash url
    let isDashOrSegment :=
      incl url ".mpd" || incl url "segment" || incl url "manifest" ||
      incl url "init.mp4" || incl url "dash"
    if isDashOrSegment = true then false
    else hasFacebookVideoIndicator

/-- validatorSpec is written from the words of the specification claim for
the Validator: length at least 200, http/https scheme, well-formed URL
(same parse abstraction), contains .mp4, the CDN fingerprint (scontent,
.fna.fbcdn.net, an /o1/v/ or /o2/v/ segment, .mp4?, the _nc_cat= marker,
and a 40-character alphanumeric/dash/underscore token immediately before
.mp4), and none of the exclusion markers. -/
def validatorSpec (parse : String → Bool) (url : String) : Prop :=
  200 ≤ url.length ∧
  (strStarts url "http://" = true ∨ strStarts url "https://" = true) ∧
  parse url = true ∧
  incl url ".mp4" = true ∧
  incl url "scontent" = true ∧
  incl url ".fna.fbcdn.net" = true ∧
  (incl url "/o1/v/" = true ∨ incl url "/o2/v/" = true) ∧
  incl url ".mp4?" = true ∧
  incl url "_nc_cat=" = true ∧
  hasLongHash url = true ∧
  incl url ".mpd" = false ∧
  incl url "segment" = false ∧
  incl url "manifest" = false ∧
  incl url "init.mp4" = false ∧
  incl url "dash" = false

/-- ContentType is the object literal returned by detectContentType. -/
structure ContentType where
  hasVideo : Bool
  hasAudio : Bool
  description : String
deriving DecidableEq

/-- Video is the object literal returned by createVideoObject; thumbnail
is always null in the source and is omitted.  vtype is the type field. -/
structure Video where
  url : String
  quality : String
  vtype : String
  size : String
  contentType : ContentType
  hasVideo : Bool
  hasAudio : Bool
  resolution : String
deriving DecidableEq

/-- detectQuality walks the qualityPatterns table (HD, SD, Low, 4K, 2K, in
that order, case-insensitive alternations) and then the case-sensitive
fallback checks. -/
def detectQuality (url : String) : String :=
  if inclCI url "hd" = true ∨ inclCI url "720p" = true ∨ inclCI url "1080p" = true ∨
      inclCI url "high" = true then "HD"
  else if inclCI url "sd" = true ∨ inclCI url "480p" = true ∨ inclCI url "medium" = true then "SD"
  else if inclCI url "low" = true ∨ inclCI url "240p" = true ∨ inclCI url "360p" = true then "Low"
  else if inclCI url "4k" = true ∨ inclCI url "2160p" = true ∨ inclCI url "ultra" = true then "4K"
  else if inclCI url "2k" = true ∨ inclCI url "1440p" = true then "2K"
  else if incl url "hd" = true ∨ incl url "720" = true ∨ incl url "1080" = true then "HD"
  else if incl url "sd" = true ∨ incl url "480" = true then "SD"
  else "Unknown Quality"

/-- detectType is the extension-based format detection. -/
def detectType (url : String) : String :=
  if incl url ".mp4" = true then "MP4"
  else if incl url ".m4v" = true then "M4V"
  else if incl url ".mov" = true then "MOV"
  else if incl url "dash" = true then "DASH"
  else "MP4"

/-- estimateSize is the sizeMap lookup with its Unknown default (every map
value is a truthy string, so || reduces to the lookup-miss default). -/
def estimateSize (quality : String) : String :=
  match quality with
  | "4K" => "~500MB"
  | "2K" => "~200MB"
  | "HD" => "~100MB"
  | "SD" => "~50MB"
  | "Low" => "~20MB"
  | _ => "Unknown"

/-- detectContentType models the source function including its use of
Math.random: rng k is the outcome of the k-th evaluation of
Math.random() > 0.3 in the process, and the returned Nat is the updated
draw counter; a draw is consumed exactly when the url contains /m69/. -/
def detectContentType (rng : Nat → Bool) (k : Nat) (url : String) : ContentType × Nat :=
  if incl url "/m78/" = true ∨ incl url "/m69/" = true ∨ incl url "/m366/" = true ∨
      incl url "/m412/" = true then
    if incl url "/m69/" = true then
      let ha := rng k
      (⟨true, ha, if ha then "Video + Audio" else "Video Only"⟩, k + 1)
    else (⟨true, true, "Video + Audio"⟩, k)
  else (⟨true, true, "Video + Audio"⟩, k)

/-- detectResolution is the resolution heuristic, explicit markers first,
then the format-code table. -/
def detectResolution (url : String) : String :=
  if incl url "1080" = true ∨ incl url "hd" = true then "1080p"
  else if incl url "720" = true then "720p"
  else if incl url "480" = true then "480p"
  else if incl url "360" = true then "360p"
  else if incl url "/m78/" = true then "720p+"
  else if incl url "/m412/" = true then "1080p+"
  else if incl url "/m366/" = true then "480p"
  else if incl url "/m69/" = true then "360p"
  else "Auto"

/-- createVideoObject builds the MediaAsset record; it threads the random
draw counter through detectContentType. -/
def createVideoObject (rng : Nat → Bool) (k : Nat) (url : String) : Video × Nat :=
  let q := detectQuality url
  let t := detectType url
  let ct := detectContentType rng k url
  (⟨url, q, t, estimateSize q, ct.1, ct.1.hasVideo, ct.1.hasAudio, detectResolution url⟩, ct.2)

/-- insertCmp models one step of a stable comparator sort: the new element
(earlier in the original array) is inserted before the first element it
does not compare-greater to.  For a consistent comparator this is exactly
the ES2019 stable Array.prototype.sort order. -/
def insertCmp (cmp : α → α → Int) (a : α) : List α → List α
  | [] => [a]
  | b :: bs => if 0 < cmp a b then b :: insertCmp cmp a bs else a :: b :: bs

/-- sortCmp models Array.prototype.sort(cmp) (stable, consistent cmp). -/
def sortCmp (cmp : α → α → Int) : List α → List α
  | [] => []
  | a :: as => insertCmp cmp a (sortCmp cmp as)

/-- qualityOrderLookup is the qualityOrder object literal of
sortVideosByQuality. -/
def qualityOrderLookup : String → Option Nat
  | "4K" => some 0
  | "2K" => some 1
  | "HD" => some 2
  | "SD" => some 3
  | "Low" => some 4
  | "Unknown Quality" => some 5
  | _ => none

/-- effOrder is the value of qualityOrder[a.quality] || 5 actually used by
the comparator: a lookup miss gives 5, and so does the stored value 0 for
4K, because 0 is falsy in JS. -/
def effOrder (v : Video) : Nat :=
  match qualityOrderLookup v.quality with
  | some n => if n = 0 then 5 else n
  | none => 5

/-- sortVideosByQuality is the final sort of extractVideos: stable sort by
the quality-label rank difference aOrder - bOrder. -/
def sortVideosByQuality (videos : List Video) : List Video :=
  sortCmp (fun a b => (effOrder a : Int) - (effOrder b : Int)) videos

/-- getQualityScore is the numeric quality score used by the grouping and
capping helpers. -/
def getQualityScore (url : String) : Int :=
  if incl url "/m412" = true ∨ incl url "/m540" = true ∨ incl url "/m720" = true ∨
      incl url "/m1080" = true then 100
  else if incl url "/m366" = true then 80
  else if incl url "/m78" = true then 60
  else if incl url "/m69" = true then 20
  else if incl url "1080" = true ∨ incl url "hd" = true then 90
  else if incl url "720" = true then 85
  else if incl url "480" = true then 70
  else if incl url "360" = true then 50
  else 40

/-- CT2 is the object literal returned by analyzeContentType. -/
structure CT2 where
  hasVideo : Bool
  hasAudio : Bool
  quality : String
  description : String
deriving DecidableEq

/-- analyzeContentType is the deterministic format-code classifier used by
the grouping helpers (regexes /\/m(412|540|720|1080)/, /\/m366/, /\/m78/,
/\/m69/ in that order). -/
def analyzeContentType (url : String) : CT2 :=
  if incl url "/m412" = true ∨ incl url "/m540" = true ∨ incl url "/m720" = true ∨
      incl url "/m1080" = true then
    ⟨true, true, "high", "High Quality Video + Audio"⟩
  else if incl url "/m366" = true then
    ⟨true, true, "standard", "Standard Quality Video + Audio"⟩
  else if incl url "/m78" = true then
    ⟨true, true, "audio-optimized", "Audio Optimized Video"⟩
  else if incl url "/m69" = true then
    ⟨true, false, "low", "Video Only (Low Quality)"⟩
  else
    ⟨true, true, "unknown", "Video + Audio"⟩

/-- firstHashId models url.match(/\/([A-Za-z0-9_-]{40,})\./): the leftmost
slash followed by a maximal run of at least 40 hash characters and a dot;
the capture is the run. -/
def firstHashId : List Char → Option (List Char)
  | [] => none
  | c :: rest =>
    if c = '/' then
      let run := rest.takeWhile isHashChar
      if 40 ≤ run.length ∧ (rest.drop run.length).head? = some '.' then some run
      else firstHashId rest
    else firstHashId rest

/-- firstF2Id models url.match(/\/f2\/([A-Za-z0-9_-]+)/). -/
def firstF2Id : List Char → Option (List Char)
  | [] => none
  | c :: rest =>
    if startsWithChars "/f2/".data (c :: rest) = true then
      let run := (rest.drop 3).takeWhile isHashChar
      if run ≠ [] then some run else firstF2Id rest
    else firstF2Id rest

/-- afterLastSlash models url.split('/').pop(). -/
def afterLastSlash (cs : List Char) : List Char :=
  (cs.reverse.takeWhile (fun c => !(c == '/'))).reverse

/-- extractBaseVideoId derives the grouping key: hash prefix (30 chars),
else the /f2/ path id, else the truncated bare filename. -/
def extractBaseVideoId (url : String) : String :=
  match firstHashId url.data with
  | some run => ⟨run.take 30⟩
  | none =>
    match firstF2Id url.data with
    | some run => ⟨run⟩
    | none =>
      ⟨(((afterLastSlash url.data).takeWhile (fun c => !(c == '?'))).takeWhile
        (fun c => !(c == '.'))).take 20⟩

/-- insertIntoGroups appends a video to its group, preserving first-seen
key order like a JS Map. -/
def insertIntoGroups (g : List (String × List Video)) (id : String) (v : Video) :
    List (String × List Video) :=
  match g with
  | [] => [(id, [v])]
  | (k, vs) :: rest =>
    if k = id then (k, vs ++ [v]) :: rest else (k, vs) :: insertIntoGroups rest id v

/-- groupVideos is the videoMap construction of identifyMainVideos. -/
def groupVideos (vs : List Video) : List (String × List Video) :=
  vs.foldl (fun g v => insertIntoGroups g (extractBaseVideoId v.url) v) []

/-- isMainVideoGroup: nonempty and containing an /m412/, /m540/ or /m366/
member (the formats set computed by the source is unused by its return
value and is omitted). -/
def isMainVideoGroup (group : List Video) : Bool :=
  if group.length < 1 then false
  else group.any (fun v => incl v.url "/m412/" || incl v.url "/m540/" || incl v.url "/m366/")

/-- selectBestVideoFromGroup: filter to content-complete non-low members,
stable sort descending by quality score, take the first; none models the
null returned for a group with no valid member. -/
def selectBestVideoFromGroup (group : List Video) : Option Video :=
  let validVideos := group.filter (fun v =>
    let ct := analyzeContentType v.url
    ct.hasVideo && ct.hasAudio && !(ct.quality == "low"))
  match sortCmp (fun a b => getQualityScore b.url - getQualityScore a.url) validVideos with
  | [] => none
  | b :: _ => some b

/-- identifyMainVideos is the cluster-dedup entry point: group by base id,
keep qualifying groups, and push each group's best video in key order. -/
def identifyMainVideos (vs : List Video) : List Video :=
  (groupVideos vs).foldl
    (fun acc g =>
      if isMainVideoGroup g.2 = true then
        match selectBestVideoFromGroup g.2 with
        | some b => acc ++ [b]
        | none => acc
      else acc)
    []

/-- limitResults videos maxVideos: if over the cap, sort descending by
quality score and slice the top maxVideos. -/
def limitResults (videos : List Video) (maxVideos : Nat) : List Video :=
  if videos.length ≤ maxVideos then videos
  else (sortCmp (fun a b => getQualityScore b.url - getQualityScore a.url) videos).take maxVideos

/-- ExtState is the mutable state of one extractVideos invocation: the
foundUrls seen-set (as a list with membership semantics), the videos
array, and the Math.random draw counter. -/
structure ExtState where
  found : List String
  videos : List Video
  k : Nat

/-- ExtractInput abstracts the regex scanning stage of extractVideos as
its output streams, each in discovery order over the cleaned html:

 * patternMatches: for the main videoPatterns loop, the pattern index and
   the text handed to decodeUrl (match[1] when the pattern captured a
   nonempty group, otherwise match[0]);
 * fallbackMatches: the texts handed to decodeUrl by fallbackVideoSearch
   (match[1] || match[0]);
 * cheerioSrcs: src attribute values of video and video source elements,
   in document order (used raw, without decodeUrl);
 * scriptMatches: the match[1] capture of each videoPatterns match inside
   script blocks whose content mentions video (none for a pattern without
   a capture group, i.e. undefined);
 * structuredUrls: string values encountered while walking JSON-LD object
   graphs (findVideoUrlsInObject collects those passing the validator and
   the caller re-checks; modelled by the single filter applied here). -/
structure ExtractInput where
  patternMatches : List (Nat × String)
  fallbackMatches : List String
  cheerioSrcs : List String
  scriptMatches : List (Option String)
  structuredUrls : List String

/-- emptyInput is the all-empty match stream. -/
def emptyInput : ExtractInput :=
  ⟨[], [], [], [], []⟩

/-- pushVideo adds a freshly created video for url to the state and
records url in the seen-set. -/
def pushVideo (rng : Nat → Bool) (st : ExtState) (url : String) : ExtState :=
  let c := createVideoObject rng st.k url
  ⟨url :: st.found, st.videos ++ [c.1], c.2⟩

/-- patternStep is one iteration of the main videoPatterns while-loop of
extractVideos: decode, the three scanner discard checks (empty/short,
markup or DASH-fragment markers, scheme), then either the permissive
pattern-31 branch (scontent and .mp4 suffice) or the normal
validate-and-dedup branch. -/
def patternStep (parse : String → Bool) (rng : Nat → Bool) (st : ExtState)
    (m : Nat × String) : ExtState :=
  let url := decodeUrl (some m.2)
  if url = "" ∨ url.length < 20 then st
  else if incl url "<" = true ∨ incl url ">" = true ∨ incl url "BaseURL" = true ∨
      incl url "SegmentBase" = true ∨ incl url "indexRange" = true then st
  else if ¬ (strStarts url "http://" = true ∨ strStarts url "https://" = true) then st
  else if m.1 = 31 ∧ incl url "scontent" = true ∧ incl url ".mp4" = true then
    if url ∈ st.found then st else pushVideo rng st url
  else if isValidVideoUrl parse url = true ∧ url ∉ st.found then pushVideo rng st url
  else st

/-- fallbackStep is one iteration of fallbackVideoSearch: decode, validate,
dedup; the scanner discard checks of the main loop are not applied here. -/
def fallbackStep (parse : String → Bool) (rng : Nat → Bool) (st : ExtState)
    (m : String) : ExtState :=
  let url := decodeUrl (some m)
  if isValidVideoUrl parse url = true ∧ url ∉ st.found then pushVideo rng st url
  else st

/-- cheerioBuildSrc is one iteration of the video / video source attribute
loops of extractWithCheerio: a present, validator-passing src is turned
into a video object and appended to cheerio's local list (no seen-set). -/
def cheerioBuildSrc (parse : String → Bool) (rng : Nat → Bool)
    (acc : List Video × Nat) (s : String) : List Video × Nat :=
  if s ≠ "" ∧ isValidVideoUrl parse s = true then
    let c := createVideoObject rng acc.2 s
    (acc.1 ++ [c.1], c.2)
  else acc

/-- cheerioBuildScript is one iteration of the script-block loop of
extractWithCheerio: decodeUrl(match[1]) then the validator only; the
scanner discard checks of the main loop are not applied here. -/
def cheerioBuildScript (parse : String → Bool) (rng : Nat → Bool)
    (acc : List Video × Nat) (m : Option String) : List Video × Nat :=
  let url := decodeUrl m
  if isValidVideoUrl parse url = true then
    let c := createVideoObject rng acc.2 url
    (acc.1 ++ [c.1], c.2)
  else acc

/-- structuredBuild is one iteration of the extractFromStructuredData loop
over the strings harvested from JSON-LD: validator then object creation. -/
def structuredBuild (parse : String → Bool) (rng : Nat → Bool)
    (acc : List Video × Nat) (s : String) : List Video × Nat :=
  if isValidVideoUrl parse s = true then
    let c := createVideoObject rng acc.2 s
    (acc.1 ++ [c.1], c.2)
  else acc

/-- mergeStep is the forEach merging cheerio or structured-data videos
into the main list under the foundUrls guard. -/
def mergeStep (st : ExtState) (v : Video) : ExtState :=
  if v.url ∈ st.found then st
  else ⟨v.url :: st.found, st.videos ++ [v], st.k⟩

/-- patternStageState is the state after the main videoPatterns loop,
starting from the fresh per-invocation state (empty seen-set, empty
videos, draw counter zero). -/
def patternStageState (parse : String → Bool) (rng : Nat → Bool)
    (ms : List (Nat × String)) : ExtState :=
  ms.foldl (patternStep parse rng) ⟨[], [], 0⟩

/-- fallbackStageState is the state after the conditional fallback search:
fallbackVideoSearch runs only when the pattern loop produced no videos. -/
def fallbackStageState (parse : String → Bool) (rng : Nat → Bool)
    (inp : ExtractInput) : ExtState :=
  let st1 := patternStageState parse rng inp.patternMatches
  if st1.videos.length = 0 then inp.fallbackMatches.foldl (fallbackStep parse rng) st1
  else st1

/-- cheerioStageVideos is the local videos list built by
extractWithCheerio (attribute loops, then script-block loop), together
with the advanced draw counter. -/
def cheerioStageVideos (parse : String → Bool) (rng : Nat → Bool)
    (inp : ExtractInput) (k : Nat) : List Video × Nat :=
  inp.scriptMatches.foldl (cheerioBuildScript parse rng)
    (inp.cheerioSrcs.foldl (cheerioBuildSrc parse rng) ([], k))

/-- cheerioMergedState is the state after merging the cheerio videos into
the main list under the foundUrls guard. -/
def cheerioMergedState (parse : String → Bool) (rng : Nat → Bool)
    (inp : ExtractInput) : ExtState :=
  let st2 := fallbackStageState parse rng inp
  let cb := cheerioStageVideos parse rng inp st2.k
  cb.1.foldl mergeStep ⟨st2.found, st2.videos, cb.2⟩

/-- structuredStageVideos is the videos list built by
extractFromStructuredData. -/
def structuredStageVideos (parse : String → Bool) (rng : Nat → Bool)
    (inp : ExtractInput) (k : Nat) : List Video × Nat :=
  inp.structuredUrls.foldl (structuredBuild parse rng) ([], k)

/-- extractVideosPre is extractVideos up to (excluding) the final sort: the
main pattern loop, the fallback search when no video was found, the
cheerio extraction and merge, and the structured-data extraction and
merge, with the seen-set and the random draw counter threaded in source
order. -/
def extractVideosPre (parse : String → Bool) (rng : Nat → Bool)
    (inp : ExtractInput) : List Video :=
  let st3 := cheerioMergedState parse rng inp
  let sb := structuredStageVideos parse rng inp st3.k
  (sb.1.foldl mergeStep ⟨st3.found, st3.videos, sb.2⟩).videos

/-- extractVideosModel is the full extractVideos: the accumulated videos
sorted by sortVideosByQuality.  This list is the ResultSet of one
extraction call (the core output handed to the HTTP layer). -/
def extractVideosModel (parse : String → Bool) (rng : Nat → Bool)
    (inp : ExtractInput) : List Video :=
  sortVideosByQuality (extractVideosPre parse rng inp)

/-- facebookFilter is the per-video predicate of the /extract-videos
endpoint (the facebookVideos filter); the hasVideoFormat local computed by
the source does not occur in the returned expression and is omitted. -/
def facebookFilter (v : Video) : Bool :=
  let isFacebookVideo :=
    incl v.url "facebook.com" || incl v.url "fbcdn.net" ||
    incl v.url "scontent" || incl v.url "fbvideo"
  let hasFacebookStructure :=
    incl v.url "?" &&
    (incl v.url "dlid=" || incl v.url "format=" || incl v.url "quality=" ||
     incl v.url "v/" || incl v.url "/v/" || incl v.url "/videos/")
  isFacebookVideo || hasFacebookStructure

/-- ScannerOk collects the properties guaranteed by the discard checks of
the main pattern loop (lines 159-175 of the server source): minimum
length, no markup delimiters or DASH-fragment markers, http/https
scheme. -/
def ScannerOk (u : String) : Prop :=
  20 ≤ u.length ∧
  incl u "<" = false ∧
  incl u ">" = false ∧
  incl u "BaseURL" = false ∧
  incl u "SegmentBase" = false ∧
  incl u "indexRange" = false ∧
  (strStarts u "http://" = true ∨ strStarts u "https://" = true)

/-- ValidOrPermissive parse u: u passed the general validator, or u was
accepted by the permissive pattern-31 branch, which only requires the
scontent token, the .mp4 extension, and the scanner checks. -/
def ValidOrPermissive (parse : String → Bool) (u : String) : Prop :=
  isValidVideoUrl parse u = true ∨
  (incl u "scontent" = true ∧ incl u ".mp4" = true ∧ 20 ≤ u.length ∧
    (strStarts u "http://" = true ∨ strStarts u "https://" = true))

/-- parseAlways is the URL-parse oracle that always succeeds; Node's
WHATWG parser accepts every concrete URL string used below (it
percent-encodes rather than rejects characters like > in a path). -/
def parseAlways : String → Bool := fun _ => true

/-- rngTrue: every Math.random() draw comes out above 0.3. -/
def rngTrue : Nat → Bool := fun _ => true

/-- rngFalse: every Math.random() draw comes out at most 0.3. -/
def rngFalse : Nat → Bool := fun _ => false

/-- inputRandFormat: a page whose cleaned html contains the quoted
escaped-slash JSON string "https:\/\/scontent.x\/m69\/aa.mp4", matched by
pattern 31 (the escaped-slash JSON pattern); the decoded URL carries the
/m69/ format code whose audio flag the source decides by Math.random. -/
def inputRandFormat : ExtractInput :=
  { emptyInput with patternMatches := [(31, "\"https:\\/\\/scontent.x\\/m69\\/aa.mp4\"")] }

/-- shortPermissiveUrl is a 26-character scontent .mp4 URL: far below the
200-character validator minimum, yet accepted by the pattern-31 branch. -/
def shortPermissiveUrl : String := "https://scontent.x/aa0.mp4"

/-- inputPermissive: a page containing the quoted escaped-slash form of
shortPermissiveUrl, matched by pattern 31. -/
def inputPermissive : ExtractInput :=
  { emptyInput with patternMatches := [(31, "\"https:\\/\\/scontent.x\\/aa0.mp4\"")] }

/-- manyMatch i is the pattern-31 match text for the i-th of a family of
distinct short scontent URLs (https://scontent.x/a<i>.mp4). -/
def manyMatch (i : Nat) : Nat × String :=
  (31, "\"https:\\/\\/scontent.x\\/a" ++ toString i ++ ".mp4\"")

/-- inputManyUrls: a page containing 21 distinct scontent video URLs, all
accepted by the permissive branch. -/
def inputManyUrls : ExtractInput :=
  { emptyInput with patternMatches := (List.range 21).map manyMatch }

/-- urlHiQuality: an /m412/ (high quality, content-complete) URL whose
41-character opaque hash starts with 30 As. -/
def urlHiQuality : String :=
  "https://scontent.x/m412/AAAAAAAAAAAAAAAAAAAAAAAAAAAAAAAAAAAAAAAAA.mp4"

/-- urlLoQuality: an /m69/ (low quality, video-only under rngFalse) URL
sharing the same 30-character hash prefix as urlHiQuality. -/
def urlLoQuality : String :=
  "https://scontent.x/m69/AAAAAAAAAAAAAAAAAAAAAAAAAAAAAAAAAAAAAAAAB.mp4"

/-- inputSharedHash: a page containing the two same-hash-prefix URLs of
Scenario C, both matched by pattern 31. -/
def inputSharedHash : ExtractInput :=
  { emptyInput with patternMatches :=
      [(31, "\"https:\\/\\/scontent.x\\/m412\\/AAAAAAAAAAAAAAAAAAAAAAAAAAAAAAAAAAAAAAAAA.mp4\""),
       (31, "\"https:\\/\\/scontent.x\\/m69\\/AAAAAAAAAAAAAAAAAAAAAAAAAAAAAAAAAAAAAAAAB.mp4\"")] }

/-- inputLabelSort: a page with an /m412/ URL (quality score 100, quality
label Unknown Quality) discovered before an hd URL (score 90, label HD). -/
def inputLabelSort : ExtractInput :=
  { emptyInput with patternMatches :=
      [(31, "\"https:\\/\\/scontent.x\\/m412\\/aa.mp4\""),
       (31, "\"https:\\/\\/scontent.x\\/hd\\/aa.mp4\"")] }

/-- badAngleUrl: a 219-character URL that satisfies every check of
isValidVideoUrl (scontent + .fna.fbcdn.net host, /o1/v/ path, 40-char
hash before .mp4?, _nc_cat= marker, no exclusion marker) while containing
a raw closing angle bracket in its path. -/
def badAngleUrl : String :=
  "https://scontent-a.fna.fbcdn.net/o1/v/>AAAAAAAAAAAAAAAAAAAAAAAAAAAAAAAAAAAAAAAA.mp4?_nc_cat=104&oh=zzzzzzzzzzzzzzzzzzzzzzzzzzzzzzzzzzzzzzzzzzzzzzzzzzzzzzzzzzzzzzzzzzzzzzzzzzzzzzzzzzzzzzzzzzzzzzzzzzzzzzzzzzzzzzzzzzzzzzzz"

/-- inputAngle: a page whose script block holds
"playable_url":"badAngleUrl".  The main pattern loop sees the capture
(pattern 4) and discards it there for its angle bracket, so the loop ends
with zero videos; the fallback search then re-captures the same quoted URL
and the extractWithCheerio script path re-captures it once more — neither
of those applies the markup checks. -/
def inputAngle : ExtractInput :=
  { emptyInput with
      patternMatches := [(4, badAngleUrl)]
      fallbackMatches := [badAngleUrl]
      scriptMatches := [some badAngleUrl] }

/-! Helper lemmas about the stable sort model. -/

theorem insertCmp_perm (cmp : α → α → Int) (a : α) (l : List α) :
    List.Perm (insertCmp cmp a l) (a :: l) := by
  induction l with
  | nil => simp [insertCmp]
  | cons b bs ih =>
    unfold insertCmp
    by_cases h : (0 : Int) < cmp a b
    · simpa [h] using (ih.cons b).trans (List.Perm.swap a b bs)
    · simp [h]

theorem sortCmp_perm (cmp : α → α → Int) (l : List α) :
    List.Perm (sortCmp cmp l) l := by
  induction l with
  | nil => simp [sortCmp]
  | cons a as ih =>
    simpa [sortCmp] using (insertCmp_perm cmp a (sortCmp cmp as)).trans (ih.cons a)

theorem length_sortCmp (cmp : α → α → Int) (l : List α) :
    (sortCmp cmp l).length = l.length :=
  (sortCmp_perm cmp l).length_eq

theorem insertCmp_key_sorted (key : α → Nat) (a : α) (l : List α)
    (h : List.Pairwise (fun x y => key x ≤ key y) l) :
    List.Pairwise (fun x y => key x ≤ key y)
      (insertCmp (fun x y => (key x : Int) - (key y : Int)) a l) := by
  induction l with
  | nil => simp [insertCmp]
  | cons b bs ih =>
    rcases List.pairwise_cons.mp h with ⟨hb, hbs⟩
    unfold insertCmp
    by_cases hc : (0 : Int) < (key a : Int) - (key b : Int)
    · rw [if_pos hc]
      refine List.pairwise_cons.mpr ⟨?_, ih hbs⟩
      intro x hx
      rcases List.mem_cons.mp (((insertCmp_perm _ a bs).mem_iff).mp hx) with rfl | hxbs
      · omega
      · exact hb x hxbs
    · rw [if_neg hc]
      refine List.pairwise_cons.mpr ⟨?_, h⟩
      intro x hx
      rcases List.mem_cons.mp hx with rfl | hxbs
      · omega
      · have := hb x hxbs; omega

theorem sortCmp_key_sorted (key : α → Nat) (l : List α) :
    List.Pairwise (fun x y => key x ≤ key y)
      (sortCmp (fun x y => (key x : Int) - (key y : Int)) l) := by
  induction l with
  | nil => simp [sortCmp]
  | cons a as ih => simpa [sortCmp] using insertCmp_key_sorted key a _ ih

theorem insertCmp_key_filter (key : α → Nat) (a : α) (l : List α) (n : Nat) :
    (insertCmp (fun x y => (key x : Int) - (key y : Int)) a l).filter
        (fun x => key x == n) =
      if key a = n then a :: l.filter (fun x => key x == n)
      else l.filter (fun x => key x == n) := by
  induction l with
  | nil =>
    by_cases h : key a = n <;> simp [insertCmp, List.filter_cons, beq_iff_eq, h]
  | cons b bs ih =>
    unfold insertCmp
    by_cases hc : (0 : Int) < (key a : Int) - (key b : Int)
    · rw [if_pos hc]
      by_cases han : key a = n
      · have hbn : ¬ key b = n := by omega
        simp [List.filter_cons, beq_iff_eq, han, hbn, ih]
      · simp [List.filter_cons, beq_iff_eq, han, ih]
    · rw [if_neg hc]
      by_cases han : key a = n <;> simp [List.filter_cons, beq_iff_eq, han]

theorem sortCmp_key_filter (key : α → Nat) (l : List α) (n : Nat) :
    (sortCmp (fun x y => (key x : Int) - (key y : Int)) l).filter
        (fun x => key x == n) =
      l.filter (fun x => key x == n) := by
  induction l with
  | nil => simp [sortCmp]
  | cons a as ih =>
    by_cases han : key a = n <;>
      simp [sortCmp, insertCmp_key_filter, han, List.filter_cons, ih]

/-! Helper lemmas about the pipeline state. -/

theorem createVideoObject_url (rng : Nat → Bool) (k : Nat) (u : String) :
    (createVideoObject rng k u).1.url = u := rfl

theorem pushVideo_found (rng : Nat → Bool) (st : ExtState) (u : String) :
    (pushVideo rng st u).found = u :: st.found := rfl

theorem pushVideo_videos (rng : Nat → Bool) (st : ExtState) (u : String) :
    (pushVideo rng st u).videos = st.videos ++ [(createVideoObject rng st.k u).1] := rfl

theorem foldl_inv_mem {σ β : Type _} (step : σ → β → σ) (Q : σ → Prop) (R : β → Prop)
    (hstep : ∀ s b, R b → Q s → Q (step s b)) :
    ∀ (l : List β), (∀ b ∈ l, R b) → ∀ s, Q s → Q (l.foldl step s) := by
  intro l
  induction l with
  | nil => intro _ s hs; simpa using hs
  | cons b bs ih =>
    intro hl s hs
    have hb := hl b (List.mem_cons_self b bs)
    have hbs : ∀ x ∈ bs, R x := fun x hx => hl x (List.mem_cons_of_mem b hx)
    simpa using ih hbs (step s b) (hstep s b hb hs)

theorem patternStep_shape (parse : String → Bool) (rng : Nat → Bool)
    (st : ExtState) (m : Nat × String) :
    patternStep parse rng st m = st ∨
    ∃ u, u ∉ st.found ∧ ScannerOk u ∧ ValidOrPermissive parse u ∧
      patternStep parse rng st m = pushVideo rng st u := by
  simp only [patternStep]
  split_ifs with h1 h2 h3 h4 h5 h6
  · exact Or.inl rfl
  · exact Or.inl rfl
  · exact Or.inl rfl
  · push_neg at h1 h2
    simp only [Bool.not_eq_true] at h2
    refine Or.inr ⟨decodeUrl (some m.2), h5, ?_, ?_, rfl⟩
    · exact ⟨by omega, h2.1, h2.2.1, h2.2.2.1, h2.2.2.2.1, h2.2.2.2.2, h3⟩
    · exact Or.inr ⟨h4.2.1, h4.2.2, by omega, h3⟩
  · rcases h6 with ⟨hva, hnf⟩
    push_neg at h1 h2
    simp only [Bool.not_eq_true] at h2
    exact Or.inr ⟨decodeUrl (some m.2), hnf,
      ⟨by omega, h2.1, h2.2.1, h2.2.2.1, h2.2.2.2.1, h2.2.2.2.2, h3⟩, Or.inl hva, rfl⟩
  · exact Or.inl rfl
  · exact Or.inl rfl

theorem fallbackStep_shape (parse : String → Bool) (rng : Nat → Bool)
    (st : ExtState) (m : String) :
    fallbackStep parse rng st m = st ∨
    ∃ u, u ∉ st.found ∧ isValidVideoUrl parse u = true ∧
      fallbackStep parse rng st m = pushVideo rng st u := by
  simp only [fallbackStep]
  split_ifs with h
  · exact Or.inr ⟨decodeUrl (some m), h.2, h.1, rfl⟩
  · exact Or.inl rfl

theorem mergeStep_shape (st : ExtState) (v : Video) :
    mergeStep st v = st ∨
    (v.url ∉ st.found ∧ mergeStep st v = ⟨v.url :: st.found, st.videos ++ [v], st.k⟩) := by
  unfold mergeStep
  split_ifs with h
  · exact Or.inl rfl
  · exact Or.inr ⟨h, rfl⟩

/-! Propagation of per-url properties through each stage. -/

theorem patternStep_url_prop (p : String → Prop) (parse : String → Bool) (rng : Nat → Bool)
    (h : ∀ u, ScannerOk u → ValidOrPermissive parse u → p u) (st : ExtState)
    (m : Nat × String) (hst : ∀ v ∈ st.videos, p v.url) :
    ∀ v ∈ (patternStep parse rng st m).videos, p v.url := by
  intro v hv
  rcases patternStep_shape parse rng st m with heq | ⟨u, _, hsc, hvp, heq⟩
  · rw [heq] at hv; exact hst v hv
  · rw [heq, pushVideo_videos] at hv
    rcases List.mem_append.mp hv with hv | hv
    · exact hst v hv
    · have hv' : v = (createVideoObject rng st.k u).1 := by simpa using hv
      rw [hv', createVideoObject_url]
      exact h u hsc hvp

theorem fallbackStep_url_prop (p : String → Prop) (parse : String → Bool) (rng : Nat → Bool)
    (h : ∀ u, isValidVideoUrl parse u = true → p u) (st : ExtState)
    (m : String) (hst : ∀ v ∈ st.videos, p v.url) :
    ∀ v ∈ (fallbackStep parse rng st m).videos, p v.url := by
  intro v hv
  rcases fallbackStep_shape parse rng st m with heq | ⟨u, _, hva, heq⟩
  · rw [heq] at hv; exact hst v hv
  · rw [heq, pushVideo_videos] at hv
    rcases List.mem_append.mp hv with hv | hv
    · exact hst v hv
    · have hv' : v = (createVideoObject rng st.k u).1 := by simpa using hv
      rw [hv', createVideoObject_url]
      exact h u hva

theorem mergeStep_url_prop (p : String → Prop) (st : ExtState) (v : Video)
    (hv : p v.url) (hst : ∀ w ∈ st.videos, p w.url) :
    ∀ w ∈ (mergeStep st v).videos, p w.url := by
  intro w hw
  rcases mergeStep_shape st v with heq | ⟨_, heq⟩
  · rw [heq] at hw; exact hst w hw
  · rw [heq] at hw
    rcases List.mem_append.mp hw with hw | hw
    · exact hst w hw
    · have hw' : w = v := by simpa using hw
      rw [hw']; exact hv

theorem cheerioBuildSrc_url_prop (parse : String → Bool) (rng : Nat → Bool)
    (acc : List Video × Nat) (s : String)
    (hacc : ∀ v ∈ acc.1, isValidVideoUrl parse v.url = true) :
    ∀ v ∈ (cheerioBuildSrc parse rng acc s).1, isValidVideoUrl parse v.url = true := by
  intro v hv
  simp only [cheerioBuildSrc] at hv
  split_ifs at hv with h
  · rcases List.mem_append.mp hv with hv | hv
    · exact hacc v hv
    · have hv' : v = (createVideoObject rng acc.2 s).1 := by simpa using hv
      rw [hv', createVideoObject_url]
      exact h.2
  · exact hacc v hv

theorem cheerioBuildScript_url_prop (parse : String → Bool) (rng : Nat → Bool)
    (acc : List Video × Nat) (m : Option String)
    (hacc : ∀ v ∈ acc.1, isValidVideoUrl parse v.url = true) :
    ∀ v ∈ (cheerioBuildScript parse rng acc m).1, isValidVideoUrl parse v.url = true := by
  intro v hv
  simp only [cheerioBuildScript] at hv
  split_ifs at hv with h
  · rcases List.mem_append.mp hv with hv | hv
    · exact hacc v hv
    · have hv' : v = (createVideoObject rng acc.2 (decodeUrl m)).1 := by simpa using hv
      rw [hv', createVideoObject_url]
      exact h
  · exact hacc v hv

theorem structuredBuild_url_prop (parse : String → Bool) (rng : Nat → Bool)
    (acc : List Video × Nat) (s : String)
    (hacc : ∀ v ∈ acc.1, isValidVideoUrl parse v.url = true) :
    ∀ v ∈ (structuredBuild parse rng acc s).1, isValidVideoUrl parse v.url = true := by
  intro v hv
  simp only [structuredBuild] at hv
  split_ifs at hv with h
  · rcases List.mem_append.mp hv with hv | hv
    · exact hacc v hv
    · have hv' : v = (createVideoObject rng acc.2 s).1 := by simpa using hv
      rw [hv', createVideoObject_url]
      exact h
  · exact hacc v hv

theorem cheerioStageVideos_valid (parse : String → Bool) (rng : Nat → Bool)
    (inp : ExtractInput) (k : Nat) :
    ∀ v ∈ (cheerioStageVideos parse rng inp k).1, isValidVideoUrl parse v.url = true := by
  unfold cheerioStageVideos
  have hsrc := foldl_inv_mem (cheerioBuildSrc parse rng)
    (fun acc => ∀ v ∈ acc.1, isValidVideoUrl parse v.url = true) (fun _ => True)
    (fun acc s _ hacc2 => cheerioBuildSrc_url_prop parse rng acc s hacc2)
    inp.cheerioSrcs (fun _ _ => trivial) ([], k) (by simp)
  exact foldl_inv_mem (cheerioBuildScript parse rng)
    (fun acc => ∀ v ∈ acc.1, isValidVideoUrl parse v.url = true) (fun _ => True)
    (fun acc m _ hacc => cheerioBuildScript_url_prop parse rng acc m hacc)
    inp.scriptMatches (fun _ _ => trivial) _ hsrc

theorem structuredStageVideos_valid (parse : String → Bool) (rng : Nat → Bool)
    (inp : ExtractInput) (k : Nat) :
    ∀ v ∈ (structuredStageVideos parse rng inp k).1, isValidVideoUrl parse v.url = true := by
  unfold structuredStageVideos
  exact foldl_inv_mem (structuredBuild parse rng)
    (fun acc => ∀ v ∈ acc.1, isValidVideoUrl parse v.url = true) (fun _ => True)
    (fun acc s _ hacc => structuredBuild_url_prop parse rng acc s hacc)
    inp.structuredUrls (fun _ _ => trivial) ([], k) (by simp)

theorem extractVideosPre_url_prop (p : String → Prop) (parse : String → Bool)
    (rng : Nat → Bool) (inp : ExtractInput)
    (hsv : ∀ u, ScannerOk u → ValidOrPermissive parse u → p u)
    (hval : ∀ u, isValidVideoUrl parse u = true → p u) :
    ∀ v ∈ extractVideosPre parse rng inp, p v.url := by
  have h1 : ∀ v ∈ (patternStageState parse rng inp.patternMatches).videos, p v.url := by
    unfold patternStageState
    exact foldl_inv_mem (patternStep parse rng) (fun st => ∀ v ∈ st.videos, p v.url)
      (fun _ => True) (fun st m _ hst => patternStep_url_prop p parse rng hsv st m hst)
      inp.patternMatches (fun _ _ => trivial) ⟨[], [], 0⟩ (by simp)
  have h2 : ∀ v ∈ (fallbackStageState parse rng inp).videos, p v.url := by
    simp only [fallbackStageState]
    split_ifs with hz
    · exact foldl_inv_mem (fallbackStep parse rng) (fun st => ∀ v ∈ st.videos, p v.url)
        (fun _ => True) (fun st m _ hst => fallbackStep_url_prop p parse rng hval st m hst)
        inp.fallbackMatches (fun _ _ => trivial) _ h1
    · exact h1
  have h3 : ∀ v ∈ (cheerioMergedState parse rng inp).videos, p v.url := by
    unfold cheerioMergedState
    exact foldl_inv_mem mergeStep (fun st => ∀ v ∈ st.videos, p v.url)
      (fun v => isValidVideoUrl parse v.url = true)
      (fun st v hr hst => mergeStep_url_prop p st v (hval v.url hr) hst)
      _ (cheerioStageVideos_valid parse rng inp _) _ h2
  unfold extractVideosPre
  exact foldl_inv_mem mergeStep (fun st => ∀ v ∈ st.videos, p v.url)
    (fun v => isValidVideoUrl parse v.url = true)
    (fun st v hr hst => mergeStep_url_prop p st v (hval v.url hr) hst)
    _ (structuredStageVideos_valid parse rng inp _) _ h3

/-! Uniqueness invariant: the seen-URL set dominates the videos list. -/

/-- StInv: the accumulated video URLs are pairwise distinct and every one
of them has been recorded in the foundUrls set. -/
def StInv (st : ExtState) : Prop :=
  (st.videos.map Video.url).Nodup ∧ ∀ v ∈ st.videos, v.url ∈ st.found

theorem StInv_push (st : ExtState) (w : Video) (k' : Nat)
    (hnf : w.url ∉ st.found) (h : StInv st) :
    StInv ⟨w.url :: st.found, st.videos ++ [w], k'⟩ := by
  constructor
  · have hall : ∀ x ∈ st.videos, ¬ x.url = w.url := by
      intro x hx hxe
      exact hnf (hxe ▸ h.2 x hx)
    simpa [List.nodup_append] using ⟨h.1, hall⟩
  · intro v hv
    rcases List.mem_append.mp hv with hv | hv
    · exact List.mem_cons_of_mem _ (h.2 v hv)
    · have hv' : v = w := by simpa using hv
      rw [hv']; exact List.mem_cons_self _ _

theorem patternStep_inv (parse : String → Bool) (rng : Nat → Bool)
    (st : ExtState) (m : Nat × String) (h : StInv st) :
    StInv (patternStep parse rng st m) := by
  rcases patternStep_shape parse rng st m with heq | ⟨u, hnf, _, _, heq⟩
  · rw [heq]; exact h
  · rw [heq]
    have := StInv_push st (createVideoObject rng st.k u).1
      (createVideoObject rng st.k u).2 (by rw [createVideoObject_url]; exact hnf) h
    simpa [pushVideo, createVideoObject_url] using this

theorem fallbackStep_inv (parse : String → Bool) (rng : Nat → Bool)
    (st : ExtState) (m : String) (h : StInv st) :
    StInv (fallbackStep parse rng st m) := by
  rcases fallbackStep_shape parse rng st m with heq | ⟨u, hnf, _, heq⟩
  · rw [heq]; exact h
  · rw [heq]
    have := StInv_push st (createVideoObject rng st.k u).1
      (createVideoObject rng st.k u).2 (by rw [createVideoObject_url]; exact hnf) h
    simpa [pushVideo, createVideoObject_url] using this

theorem mergeStep_inv (st : ExtState) (v : Video) (h : StInv st) :
    StInv (mergeStep st v) := by
  rcases mergeStep_shape st v with heq | ⟨hnf, heq⟩
  · rw [heq]; exact h
  · rw [heq]; exact StInv_push st v st.k hnf h

theorem extractVideosPre_nodup (parse : String → Bool) (rng : Nat → Bool)
    (inp : ExtractInput) :
    ((extractVideosPre parse rng inp).map Video.url).Nodup := by
  have h1 : StInv (patternStageState parse rng inp.patternMatches) := by
    unfold patternStageState
    exact foldl_inv_mem (patternStep parse rng) StInv (fun _ => True)
      (fun st m _ h => patternStep_inv parse rng st m h)
      inp.patternMatches (fun _ _ => trivial) ⟨[], [], 0⟩ (by constructor <;> simp)
  have h2 : StInv (fallbackStageState parse rng inp) := by
    simp only [fallbackStageState]
    split_ifs with hz
    · exact foldl_inv_mem (fallbackStep parse rng) StInv (fun _ => True)
        (fun st m _ h => fallbackStep_inv parse rng st m h)
        inp.fallbackMatches (fun _ _ => trivial) _ h1
    · exact h1
  have h2' : StInv (⟨(fallbackStageState parse rng inp).found,
      (fallbackStageState parse rng inp).videos,
      (cheerioStageVideos parse rng inp (fallbackStageState parse rng inp).k).2⟩ : ExtState) :=
    ⟨h2.1, h2.2⟩
  have h3 : StInv (cheerioMergedState parse rng inp) := by
    unfold cheerioMergedState
    exact foldl_inv_mem mergeStep StInv (fun _ => True)
      (fun st v _ h => mergeStep_inv st v h)
      _ (fun _ _ => trivial) _ h2'
  have h3' : StInv (⟨(cheerioMergedState parse rng inp).found,
      (cheerioMergedState parse rng inp).videos,
      (structuredStageVideos parse rng inp (cheerioMergedState parse rng inp).k).2⟩ : ExtState) :=
    ⟨h3.1, h3.2⟩
  have h4 : StInv ((structuredStageVideos parse rng inp
      (cheerioMergedState parse rng inp).k).1.foldl mergeStep
      ⟨(cheerioMergedState parse rng inp).found, (cheerioMergedState parse rng inp).videos,
        (structuredStageVideos parse rng inp (cheerioMergedState parse rng inp).k).2⟩) :=
    foldl_inv_mem mergeStep StInv (fun _ => True)
      (fun st v _ h => mergeStep_inv st v h) _ (fun _ _ => trivial) _ h3'
  exact h4.1

/-! Identity lemmas for the Normalizer and the percent decoder. -/

theorem replaceUnicodeAux_id (fuel : Nat) :
    ∀ cs : List Char, '\\' ∉ cs → replaceUnicodeAux fuel cs = cs := by
  induction fuel with
  | zero => intro cs _; rfl
  | succ fuel ih =>
    intro cs hcs
    cases cs with
    | nil => rfl
    | cons c rest =>
      have hc : ¬ c = '\\' := fun hc => hcs (hc ▸ List.mem_cons_self c rest)
      have hrest : '\\' ∉ rest := fun hr => hcs (List.mem_cons_of_mem c hr)
      simp only [replaceUnicodeAux, if_neg hc]
      rw [ih rest hrest]

theorem replaceSubAux_id (p : Char) (pt rep : List Char) (fuel : Nat) :
    ∀ cs : List Char, p ∉ cs → replaceSubAux (p :: pt) rep fuel cs = cs := by
  induction fuel with
  | zero => intro cs _; rfl
  | succ fuel ih =>
    intro cs hcs
    cases cs with
    | nil => rfl
    | cons c rest =>
      have hc : ¬ p = c := fun hc => hcs (hc ▸ List.mem_cons_self c rest)
      have hrest : p ∉ rest := fun hr => hcs (List.mem_cons_of_mem c hr)
      have hcond : ¬ (1 ≤ (p :: pt).length ∧ startsWithChars (p :: pt) (c :: rest) = true) := by
        rintro ⟨-, hs⟩
        rw [startsWithChars, Bool.and_eq_true, beq_iff_eq] at hs
        exact hc hs.1
      simp only [replaceSubAux, if_neg hcond]
      rw [ih rest hrest]

theorem replaceSub_id (p : Char) (pt rep : List Char) (cs : List Char)
    (h : p ∉ cs) : replaceSub (p :: pt) rep cs = cs :=
  replaceSubAux_id p pt rep cs.length cs h

theorem cleanHtml_id_of_clean (s : String)
    (hbs : '\\' ∉ s.data) (hamp : '&' ∉ s.data) : cleanHtml s = s := by
  simp only [cleanHtml]
  rw [show replaceUnicode s.data = s.data from replaceUnicodeAux_id s.data.length s.data hbs]
  rw [replaceSub_id '\\' _ _ _ hbs, replaceSub_id '\\' _ _ _ hbs]
  rw [replaceSub_id '&' _ _ _ hamp, replaceSub_id '&' _ _ _ hamp,
    replaceSub_id '&' _ _ _ hamp, replaceSub_id '&' _ _ _ hamp]

theorem decodeURICompAux_no_pct (fuel : Nat) :
    ∀ cs : List Char, '%' ∉ cs → decodeURICompAux fuel cs = some cs := by
  induction fuel with
  | zero => intro cs _; rfl
  | succ fuel ih =>
    intro cs hcs
    cases cs with
    | nil => rfl
    | cons c rest =>
      have hc : ¬ c = '%' := fun hc => hcs (hc ▸ List.mem_cons_self c rest)
      have hrest : '%' ∉ rest := fun hr => hcs (List.mem_cons_of_mem c hr)
      simp only [decodeURICompAux, if_neg hc]
      rw [ih rest hrest]
      rfl

/-! Substring lemmas used to compare the validator with its
specification. -/

theorem containsSub_of_starts : ∀ (t n : List Char),
    startsWithChars n t = true → containsSub t n = true := by
  intro t n h
  cases t with
  | nil =>
    cases n with
    | nil => rfl
    | cons a l => simp [startsWithChars] at h
  | cons c t' =>
    rw [containsSub, Bool.or_eq_true]
    exact Or.inl h

theorem containsSub_of_cons {hay : List Char} {c : Char} {n : List Char}
    (h : containsSub hay (c :: n) = true) : containsSub hay n = true := by
  induction hay with
  | nil => simp [containsSub] at h
  | cons a t ih =>
    rw [containsSub, Bool.or_eq_true] at h ⊢
    rcases h with h | h
    · rw [startsWithChars, Bool.and_eq_true] at h
      exact Or.inr (containsSub_of_starts t n h.2)
    · exact Or.inr (ih h)

theorem incl_of_amp_nc (url : String)
    (h : incl url "&_nc_cat=" = true) : incl url "_nc_cat=" = true := by
  have h' : containsSub url.data ('&' :: "_nc_cat=".data) = true := h
  exact containsSub_of_cons h'

/-! Claim theorems. -/

set_option maxRecDepth 20000 in
/-- C1: the claim says the extraction pipeline is deterministic, including
each asset's contentType.hasAudio field.  The code decides hasAudio for
/m69/ URLs by Math.random() > 0.3 (detectContentType), so two invocations
on the same input whose draws differ return different ResultSets: on the
inputRandFormat page the single extracted video has hasAudio true under
one draw sequence and false under another. -/
theorem c1_random_classification_nondeterministic :
    extractVideosModel parseAlways rngTrue inputRandFormat ≠
      extractVideosModel parseAlways rngFalse inputRandFormat := by
  decide

set_option maxRecDepth 20000 in
/-- C2 counterexample: the ResultSet for inputPermissive consists of the
26-character shortPermissiveUrl, admitted by the permissive pattern-31
branch, and isValidVideoUrl rejects that URL (it is far below the
200-character minimum), refuting the claim that every ResultSet member
satisfies the Validator. -/
theorem c2_counterexample :
    (extractVideosModel parseAlways rngTrue inputPermissive).map Video.url =
      [shortPermissiveUrl] ∧
    isValidVideoUrl parseAlways shortPermissiveUrl = false := by
  decide

/-- C2 amended: every MediaAsset in the ResultSet of an extraction call
either has a URL accepted by isValidVideoUrl or was admitted via the
permissive pattern-31 branch, in which case its URL contains scontent and
.mp4, is at least 20 characters long and starts with http:// or https://. -/
theorem c2_members_valid_or_permissive (parse : String → Bool) (rng : Nat → Bool)
    (inp : ExtractInput) :
    ∀ v ∈ extractVideosModel parse rng inp, ValidOrPermissive parse v.url := by
  intro v hv
  have hv' : v ∈ sortCmp (fun a b => (effOrder a : Int) - (effOrder b : Int))
      (extractVideosPre parse rng inp) := hv
  have hpre : v ∈ extractVideosPre parse rng inp := ((sortCmp_perm _ _).mem_iff).mp hv'
  exact extractVideosPre_url_prop (ValidOrPermissive parse) parse rng inp
    (fun _ _ hvp => hvp) (fun _ hval => Or.inl hval) v hpre

set_option maxRecDepth 20000 in
/-- C2 witness: the amended theorem applied to the concrete permissive
member of the inputPermissive ResultSet. -/
theorem c2_witness : ValidOrPermissive parseAlways shortPermissiveUrl := by
  have h := c2_members_valid_or_permissive parseAlways rngTrue inputPermissive
    (createVideoObject rngTrue 0 shortPermissiveUrl).1 (by decide)
  exact h

set_option maxRecDepth 40000 in
/-- C3: the claim says the ResultSet never exceeds the configured cap of
roughly 15-20.  The cap helper limitResults does bound its output by
maxVideos (second conjunct), but the /extract-videos endpoint never calls
it (nor any of the filtering helpers), so the response for the
inputManyUrls page carries 21 videos even after the endpoint's Facebook
filter. -/
theorem c3_cap_not_applied :
    20 < ((extractVideosModel parseAlways rngTrue inputManyUrls).filter
      facebookFilter).length ∧
    ∀ (vs : List Video) (n : Nat), (limitResults vs n).length ≤ n := by
  constructor
  · decide
  · intro vs n
    unfold limitResults
    split_ifs with h
    · exact h
    · simp [List.length_take]

/-- C4: isValidVideoUrl accepts a URL exactly when all the conditions of
the specification hold: length at least 200, http/https scheme, successful
URL parse (the same parse abstraction on both sides, with a parse failure
yielding false rather than an exception), a .mp4 marker, the Facebook CDN
fingerprint (scontent, .fna.fbcdn.net, /o1/v/ or /o2/v/, .mp4?, _nc_cat=,
40-character hash token immediately before .mp4), and no exclusion marker
(.mpd, segment, manifest, init.mp4, dash).  The source's redundant
disjunct url.includes('&_nc_cat=') is absorbed by the _nc_cat= check. -/
theorem c4_validator_matches_spec (parse : String → Bool) (url : String) :
    isValidVideoUrl parse url = true ↔ validatorSpec parse url := by
  unfold isValidVideoUrl validatorSpec
  constructor
  · intro h
    split_ifs at h with h1 h2 h3 h4 h5
    dsimp only at h
    by_cases hd : (incl url ".mpd" || incl url "segment" || incl url "manifest" ||
        incl url "init.mp4" || incl url "dash") = true
    · rw [if_pos hd] at h; exact absurd h Bool.false_ne_true
    · rw [if_neg hd] at h
      simp only [Bool.or_eq_true, not_or, Bool.not_eq_true] at hd
      simp only [Bool.and_eq_true, Bool.or_eq_true] at h
      obtain ⟨⟨⟨⟨⟨hsc, hfna⟩, ho⟩, hq⟩, hnc⟩, hhash⟩ := h
      obtain ⟨⟨⟨⟨hd1, hd2⟩, hd3⟩, hd4⟩, hd5⟩ := hd
      refine ⟨by omega, h3, by simpa using h4, by simpa using h5, hsc, hfna, ho, hq, ?_,
        hhash, hd1, hd2, hd3, hd4, hd5⟩
      rcases hnc with hnc | hnc
      · exact hnc
      · exact incl_of_amp_nc url hnc
  · rintro ⟨hlen, hscheme, hparse, hmp4, hsc, hfna, ho, hq, hnc, hhash,
      hmpd, hseg, hman, hinit, hdash⟩
    have h1 : ¬ url = "" := by
      intro he; subst he; exact absurd hlen (by decide)
    rw [if_neg h1, if_neg (by omega : ¬ url.length < 200), if_neg (not_not_intro hscheme),
      if_neg (by simp [hparse]), if_neg (by simp [hmp4])]
    dsimp only
    rw [if_neg (by simp [hmpd, hseg, hman, hinit, hdash])]
    have ho2 : (incl url "/o1/v/" || incl url "/o2/v/") = true := by
      rcases ho with h | h <;> simp [h]
    simp [hsc, hfna, ho2, hq, hnc, hhash]

set_option maxRecDepth 40000 in
/-- C5: the claim says cluster dedup keeps one content-complete member per
hash-prefix group, so Scenario C's ResultSet would hold only the
high-quality URL.  The grouping helpers behave exactly that way —
identifyMainVideos applied to the two extracted videos returns only the
/m412/ one (second conjunct) — but extractVideos never invokes them, so
the actual ResultSet holds both the content-complete /m412/ URL and the
video-only /m69/ URL sharing its 30-character hash prefix. -/
theorem c5_cluster_dedup_not_invoked :
    (extractVideosModel parseAlways rngFalse inputSharedHash).map Video.url =
      [urlHiQuality, urlLoQuality] ∧
    (identifyMainVideos (extractVideosModel parseAlways rngFalse inputSharedHash)).map
      Video.url = [urlHiQuality] := by
  decide

set_option maxRecDepth 20000 in
/-- C6 counterexample: the ResultSet for inputLabelSort is not in
descending qualityScore order: the hd-labelled URL (score 90) precedes the
/m412/ URL (score 100), because the final sort orders by quality label
rank, not by getQualityScore. -/
theorem c6_counterexample :
    ¬ List.Pairwise (fun a b => getQualityScore b.url ≤ getQualityScore a.url)
      (extractVideosModel parseAlways rngTrue inputLabelSort) := by
  decide

/-- C6 amended: the final result sequence is a permutation of the
accumulated videos, stable-sorted ascending by the effective quality-label
rank effOrder (the qualityOrder lookup with its falsy-default, which sends
4K to rank 5): ranks are nondecreasing along the output and every
equal-rank class keeps its discovery order. -/
theorem c6_sort_is_stable_by_label (parse : String → Bool) (rng : Nat → Bool)
    (inp : ExtractInput) :
    List.Perm (extractVideosModel parse rng inp) (extractVideosPre parse rng inp) ∧
    List.Pairwise (fun a b => effOrder a ≤ effOrder b)
      (extractVideosModel parse rng inp) ∧
    ∀ n : Nat, (extractVideosModel parse rng inp).filter (fun v => effOrder v == n) =
      (extractVideosPre parse rng inp).filter (fun v => effOrder v == n) := by
  refine ⟨sortCmp_perm _ _, sortCmp_key_sorted effOrder _, fun n => ?_⟩
  exact sortCmp_key_filter effOrder _ n

/-- C7 counterexample: cleanHtml is not idempotent: normalizing
&amp;quot; yields &quot;, and normalizing again yields a double-quote
character. -/
theorem c7_counterexample :
    cleanHtml (cleanHtml "&amp;quot;") ≠ cleanHtml "&amp;quot;" := by
  decide

/-- C7 amended: cleanHtml is idempotent on every input whose normalized
form contains no backslash and no ampersand (no replacement can fire a
second time); in general re-normalization can decode entities introduced
by the first pass, as the counterexample shows. -/
theorem c7_idempotent_on_stable_output (t : String)
    (h1 : '\\' ∉ (cleanHtml t).data) (h2 : '&' ∉ (cleanHtml t).data) :
    cleanHtml (cleanHtml t) = cleanHtml t :=
  cleanHtml_id_of_clean (cleanHtml t) h1 h2

/-- C7 witness: the amended idempotence applied to a concrete input. -/
theorem c7_witness :
    ('\\' ∉ (cleanHtml "plain text").data ∧ '&' ∉ (cleanHtml "plain text").data) ∧
    cleanHtml (cleanHtml "plain text") = cleanHtml "plain text" :=
  ⟨by decide, c7_idempotent_on_stable_output "plain text" (by decide) (by decide)⟩

/-- C8: no two entries of the ResultSet of one extraction call share a
URL: every admission path (pattern loop, permissive branch, fallback
search, cheerio merges, structured-data merge) is guarded by the foundUrls
seen-set, which dominates the accumulated list, and the final sort
permutes it. -/
theorem c8_urls_unique (parse : String → Bool) (rng : Nat → Bool) (inp : ExtractInput) :
    ((extractVideosModel parse rng inp).map Video.url).Nodup := by
  have hperm : List.Perm ((extractVideosModel parse rng inp).map Video.url)
      ((extractVideosPre parse rng inp).map Video.url) :=
    (sortCmp_perm _ _).map Video.url
  exact hperm.nodup_iff.mpr (extractVideosPre_nodup parse rng inp)

set_option maxRecDepth 40000 in
/-- C9 counterexample: a decoded candidate containing a raw closing angle
bracket survives the Scanner: the main pattern loop discards badAngleUrl,
but the fallback search (and likewise the cheerio script path) applies
only isValidVideoUrl, with no markup check, so the URL ends up in the
ResultSet. -/
theorem c9_counterexample :
    (extractVideosModel parseAlways rngTrue inputAngle).map Video.url = [badAngleUrl] ∧
    incl badAngleUrl ">" = true := by
  decide

/-- C9 amended: within the main pattern loop the discard rule holds —
every video admitted there has a decoded URL of length at least 20,
containing no angle bracket and no BaseURL / SegmentBase / indexRange
fragment marker, and starting with http:// or https:// — but the cheerio
script path bypasses these checks, as the counterexample shows. -/
theorem c9_pattern_loop_discards (parse : String → Bool) (rng : Nat → Bool)
    (ms : List (Nat × String)) :
    ∀ v ∈ (patternStageState parse rng ms).videos, ScannerOk v.url := by
  unfold patternStageState
  exact foldl_inv_mem (patternStep parse rng) (fun st => ∀ v ∈ st.videos, ScannerOk v.url)
    (fun _ => True)
    (fun st m _ hst => patternStep_url_prop ScannerOk parse rng (fun _ hsc _ => hsc) st m hst)
    ms (fun _ _ => trivial) ⟨[], [], 0⟩ (by simp)

set_option maxRecDepth 20000 in
/-- C9 witness: the amended scanner property applied to the concrete video
admitted by the pattern loop on the inputPermissive page. -/
theorem c9_witness : ScannerOk shortPermissiveUrl := by
  have h := c9_pattern_loop_discards parseAlways rngTrue inputPermissive.patternMatches
    (createVideoObject rngTrue 0 shortPermissiveUrl).1 (by decide)
  exact h

/-- C10 counterexample: when percent decoding fails, decodeUrl does not
return the original input with only backslash/quote removal and trim: for
the quoted BaseURL-wrapped input the tags were already stripped before the
failure, so the result is https://a% rather than the claimed
BaseURL-prefixed cleanup of the input. -/
theorem c10_counterexample :
    decodeUrl (some "\"<BaseURL>https://a%\"") = "https://a%" ∧
    ("https://a%" : String) ≠ "<BaseURL>https://a%" := by
  decide

/-- C10 amended: decodeUrl is total — a non-string (none) or empty input
yields the empty string; when percent decoding throws, the catch block
returns the already quote- and tag-stripped intermediate with backslashes
removed, wrapping quotes removed and trimmed (not the original input);
and percent decoding never throws on a percent-free string. -/
theorem c10_decodeUrl_total_and_fallback :
    decodeUrl none = "" ∧ decodeUrl (some "") = "" ∧
    (∀ u : String, u ≠ "" →
      decodeURIComp (dropBackslash (removeTags (removeSubCI "><baseurl>".data
        (stripClose (stripLeadBase (stripQuotes u.data)))))) = none →
      decodeUrl (some u) =
        ⟨trimChars (stripQuotes (dropBackslash (removeTags (removeSubCI "><baseurl>".data
          (stripClose (stripLeadBase (stripQuotes u.data)))))))⟩) ∧
    (∀ cs : List Char, '%' ∉ cs → decodeURIComp cs = some cs) := by
  refine ⟨rfl, rfl, ?_, ?_⟩
  · intro u hne hdec
    simp only [decodeUrl]
    rw [if_neg hne, hdec]
  · intro cs h
    exact decodeURICompAux_no_pct cs.length cs h

/-- C10 witness: the fallback equation applied at the concrete failing
input, and the no-throw clause at a percent-free string. -/
theorem c10_witness :
    decodeUrl (some "\"<BaseURL>https://a%\"") =
      ⟨trimChars (stripQuotes (dropBackslash (removeTags (removeSubCI "><baseurl>".data
        (stripClose (stripLeadBase (stripQuotes
          ("\"<BaseURL>https://a%\"" : String).data)))))))⟩ ∧
    decodeURIComp "https".data = some "https".data :=
  ⟨c10_decodeUrl_total_and_fallback.2.2.1 "\"<BaseURL>https://a%\"" (by decide) (by decide),
    c10_decodeUrl_total_and_fallback.2.2.2 "https".data (by decide)⟩

end Zedd
